import Mathlib

/-
  Verification of the WebAssembly in-place interpreter (IPInt) metadata
  generator, `WasmIPIntGenerator.cpp` (JavaScriptCore, javafx.web).

  The metadata stream is a growable byte buffer.  Bytes are modelled as
  natural numbers < 256 in a `List Nat`.  `WRITE_TO_METADATA(ptr + off, v,
  uintN)` becomes `writeToMetadata m off N v`, an in-place little-endian
  overwrite that never changes the buffer's length.
-/

namespace IPInt

/-- Little-endian read of `w` bytes starting at `off` (missing bytes read 0),
mirroring how the interpreter consumes fixed-width metadata fields. -/
def readBytes (m : List Nat) (off : Nat) : Nat → Nat
  | 0 => 0
  | w + 1 => m.getD off 0 + 256 * readBytes m (off + 1) w

/-- Modelled from the spec: `write(offset, value, width)` of the Metadata
Buffer (spec 4.1) overwrites `width` bytes at a previously allocated offset
with the value's little-endian representation; the buffer never grows on a
write.  This is the semantics of the source's `WRITE_TO_METADATA` macro,
whose definition lives in the metadata-generator header absent from src. -/
def writeToMetadata : List Nat → Nat → Nat → Nat → List Nat
  | m, _, 0, _ => m
  | m, off, w + 1, v => writeToMetadata (m.set off (v % 256)) (off + 1) w (v / 256)

/-- Modelled from the spec: `allocate(n)` of the Metadata Buffer (spec 4.1)
appends `n` zero-initialized bytes; the source's
`FunctionIPIntMetadataGenerator::addBlankSpace` is absent from src. -/
def addBlankSpace (m : List Nat) (n : Nat) : List Nat :=
  m ++ List.replicate n 0

/-! ## Data model: types, block signatures, control scopes -/

/-- WebAssembly value types as seen by the generator.  `WasmIPIntGenerator.cpp`
inspects them only through `isI32`/`isI64` (in `addArguments`), additionally
`isF32`/`isF64` (in `addCallCommonData`), and `isRefType` (in `setGlobal`);
reference and vector types exist in the language and flow through the same
callbacks. -/
inductive WasmType
  | i32 | i64 | f32 | f64 | funcref | externref | v128
deriving DecidableEq, Repr

def WasmType.isI32 : WasmType → Bool
  | .i32 => true
  | _ => false

def WasmType.isI64 : WasmType → Bool
  | .i64 => true
  | _ => false

def WasmType.isF32 : WasmType → Bool
  | .f32 => true
  | _ => false

def WasmType.isF64 : WasmType → Bool
  | .f64 => true
  | _ => false

/-- A block signature (`BlockSignature` / `FunctionSignature`): ordered
parameter types and result types. -/
structure FunctionSignature where
  arguments : List WasmType
  returns : List WasmType
deriving DecidableEq, Repr

inductive BlockType
  | TopLevel | Block | Loop | If | Try | Catch
deriving DecidableEq, Repr

inductive CatchKind
  | Catch | CatchAll
deriving DecidableEq, Repr

/-- `IPIntControlType` (WasmIPIntGenerator.cpp lines 102-160): one control
scope.  `m_awaitingUpdate` holds metadata offsets of branch entries whose
(PC, MC) pair is still blank; `m_pendingOffset` is the scope's own pending
patch site (-1 when absent); `m_pc`/`m_mc` are the loop branch-back
coordinates (-1 when not a loop). -/
structure IPIntControlType where
  m_signature : FunctionSignature
  m_blockType : BlockType
  m_catchKind : CatchKind := .Catch
  m_awaitingUpdate : List Nat := []
  m_pendingOffset : Int := -1
  m_pc : Int := -1
  m_mc : Int := -1
deriving DecidableEq, Repr

instance : Inhabited IPIntControlType :=
  ⟨⟨⟨[], []⟩, .Block, .Catch, [], -1, -1, -1⟩⟩

/-- The two-argument `IPIntControlType` constructor used throughout the
generator: fresh scope, empty patch bookkeeping. -/
def IPIntControlType.make (signature : FunctionSignature) (blockType : BlockType) :
    IPIntControlType :=
  { m_signature := signature, m_blockType := blockType }

/-- `IPIntControlType::branchTargetArity` (lines 144-149): parameter count for
a loop target, result count otherwise. -/
def IPIntControlType.branchTargetArity (c : IPIntControlType) : Nat :=
  if c.m_blockType = .Loop then c.m_signature.arguments.length
  else c.m_signature.returns.length

/-! ## The metadata generator state and its buffer primitives

`FunctionIPIntMetadataGenerator` itself is declared in a header that is not
part of src; its fields and buffer helpers are modelled from the spec
(sections 4.1 and 6) and from the metadata layout documented in the big
comment at the top of WasmIPIntGenerator.cpp (lines 45-91). -/

/-- The per-function metadata object under construction
(`FunctionIPIntMetadataGenerator`).  `m_metadata` is the byte buffer; the
counts and the argument layout table are spec section 6 output (c)-(d). -/
structure Metadata where
  m_metadata : List Nat := []
  m_numLocals : Nat := 0
  m_numArguments : Nat := 0
  m_numArgumentsOnStack : Nat := 0
  m_argumentLocations : List Nat := []
  m_nonArgLocalOffset : Int := 0
  m_bytecodeLength : Nat := 0
deriving DecidableEq, Repr

/-- Modelled from the spec: `addRawValue` appends one aligned 8-byte metadata
entry holding the value (spec 4.1 allocate + write; layout per the in-file
doc, e.g. line 69 "block: 1 entry; 8B PC of next instruction").  The source
helper is absent from src. -/
def addRawValue (m : List Nat) (v : Nat) : List Nat :=
  writeToMetadata (addBlankSpace m 8) m.length 8 v

/-- Modelled from the spec: `addLEB128ConstantInt32AndLength` appends one
8-byte entry, 4B decoded value then 4B source-instruction length (in-file doc
lines 77-86, e.g. "local.get: 1 entry; 4B index of local, 4B size of
instruction").  The source helper is absent from src. -/
def addLEB128ConstantInt32AndLength (m : List Nat) (v len : Nat) : List Nat :=
  writeToMetadata (writeToMetadata (addBlankSpace m 8) m.length 4 v) (m.length + 4) 4 len

/-- Modelled from the spec: a return value's one-byte type tag in the Return
Data block (spec 4.5 "one byte per return value encoding its type tag"); the
concrete encoding lives outside src, so the tags here are representative. -/
def typeTag : WasmType → Nat
  | .i32 => 0
  | .i64 => 1
  | .f32 => 2
  | .f64 => 3
  | .funcref => 4
  | .externref => 5
  | .v128 => 6

/-- Modelled from the spec: `addReturnData` (spec 4.5 and in-file doc line 73:
"If exiting the function: ceil((# return values + 2) / 8) entries; 2B for
total entry size, 1B / value returned").  The source helper is absent from
src. -/
def addReturnData (m : List Nat) (types : List WasmType) : List Nat :=
  let entrySize := 8 * ((types.length + 2 + 7) / 8)
  let m1 := addBlankSpace m entrySize
  let m2 := writeToMetadata m1 m.length 2 entrySize
  (List.range types.length).foldl
    (fun acc i => writeToMetadata acc (m.length + 2 + i) 1 (typeTag (types.getD i .i32))) m2

/-! ## Instruction encoders (per-callback functions)

Each callback takes the bytecode-relative cursor `pc`, standing for the
driving parser's `m_parser->offset() - m_metadata->m_bytecodeOffset` at the
moment the callback runs; `instrLen` stands for
`getCurrentInstructionLength()`. -/

/-- `IPIntGenerator::addArguments` (lines 605-637), the register/stack
assignment loop: integer-typed arguments take GPR slots 0-7 while fewer than
8 are used, every other argument takes FPR slots 8-15 while fewer than 8 are
used, the rest go to caller-stack slots numbered from 16.  Returns the
location list and how many arguments went to the stack. -/
def assignArgumentLocations : List WasmType → Nat → Nat → Nat → List Nat × Nat
  | [], _, _, _ => ([], 0)
  | arg :: rest, numGPR, numFPR, stackOffset =>
    if arg.isI32 || arg.isI64 then
      if numGPR < 8 then
        let r := assignArgumentLocations rest (numGPR + 1) numFPR stackOffset
        (numGPR :: r.1, r.2)
      else
        let r := assignArgumentLocations rest numGPR numFPR (stackOffset + 1)
        (stackOffset :: r.1, r.2 + 1)
    else
      if numFPR < 8 then
        let r := assignArgumentLocations rest numGPR (numFPR + 1) stackOffset
        ((8 + numFPR) :: r.1, r.2)
      else
        let r := assignArgumentLocations rest numGPR numFPR (stackOffset + 1)
        (stackOffset :: r.1, r.2 + 1)

/-- `IPIntGenerator::addArguments` (lines 605-637): record counts, assign each
parameter a slot, and derive `m_nonArgLocalOffset = 16 + m_numArgumentsOnStack
- m_numArguments` (line 635). -/
def addArguments (md : Metadata) (signature : FunctionSignature) : Metadata :=
  let numArgs := signature.arguments.length
  let (locs, onStack) := assignArgumentLocations signature.arguments 0 0 16
  let numOnStack := md.m_numArgumentsOnStack + onStack
  { md with
    m_numLocals := md.m_numLocals + numArgs
    m_numArguments := numArgs
    m_argumentLocations := locs
    m_numArgumentsOnStack := numOnStack
    m_nonArgLocalOffset := 16 + (numOnStack : Int) - (numArgs : Int) }

/-- `IPIntGenerator::addLocal` (lines 639-643). -/
def addLocal (md : Metadata) (count : Nat) : Metadata :=
  { md with m_numLocals := md.m_numLocals + count }

/-- `IPIntGenerator::getLocal` (lines 645-652): argument indices resolve
through the argument layout table, other locals to
`index + m_nonArgLocalOffset`; a 4B slot + 4B instruction length entry. -/
def getLocal (md : Metadata) (index : Nat) (instrLen : Nat) : Metadata :=
  if index ≥ md.m_numArguments then
    let slot := (((index : Int) + md.m_nonArgLocalOffset) % (2 ^ 32 : Nat)).toNat
    { md with m_metadata := addLEB128ConstantInt32AndLength md.m_metadata slot instrLen }
  else
    let slot := md.m_argumentLocations.getD index 0
    { md with m_metadata := addLEB128ConstantInt32AndLength md.m_metadata slot instrLen }

/-- `IPIntGenerator::setLocal` (lines 653-660), byte-for-byte the same entry
as `getLocal`. -/
def setLocal (md : Metadata) (index : Nat) (instrLen : Nat) : Metadata :=
  if index ≥ md.m_numArguments then
    let slot := (((index : Int) + md.m_nonArgLocalOffset) % (2 ^ 32 : Nat)).toNat
    { md with m_metadata := addLEB128ConstantInt32AndLength md.m_metadata slot instrLen }
  else
    let slot := md.m_argumentLocations.getD index 0
    { md with m_metadata := addLEB128ConstantInt32AndLength md.m_metadata slot instrLen }

/-! ## No-metadata instructions

The arithmetic / bitwise / comparison / extension / truncation / conversion
callbacks (lines 775-946) all have the body `{ return { }; }`: they neither
append to nor modify the metadata buffer (the `Value` expression type carries
no information).  A representative of every category in the source is
modelled below. -/

def addI32Add (md : Metadata) : Metadata := md
def addI64Add (md : Metadata) : Metadata := md
def addI32Sub (md : Metadata) : Metadata := md
def addI32Mul (md : Metadata) : Metadata := md
def addI64DivS (md : Metadata) : Metadata := md
def addI32RemU (md : Metadata) : Metadata := md
def addI32And (md : Metadata) : Metadata := md
def addI64Xor (md : Metadata) : Metadata := md
def addI32Shl (md : Metadata) : Metadata := md
def addI64ShrS (md : Metadata) : Metadata := md
def addI32Rotl (md : Metadata) : Metadata := md
def addI64Popcnt (md : Metadata) : Metadata := md
def addI32Clz (md : Metadata) : Metadata := md
def addI64Ctz (md : Metadata) : Metadata := md
def addF32Add (md : Metadata) : Metadata := md
def addF64Mul (md : Metadata) : Metadata := md
def addF32Div (md : Metadata) : Metadata := md
def addF64Sqrt (md : Metadata) : Metadata := md
def addF32Neg (md : Metadata) : Metadata := md
def addF64Abs (md : Metadata) : Metadata := md
def addF32Copysign (md : Metadata) : Metadata := md
def addF64Nearest (md : Metadata) : Metadata := md
def addI32Eq (md : Metadata) : Metadata := md
def addI32LtU (md : Metadata) : Metadata := md
def addI64GeS (md : Metadata) : Metadata := md
def addI64Eqz (md : Metadata) : Metadata := md
def addF32Eq (md : Metadata) : Metadata := md
def addF64Le (md : Metadata) : Metadata := md
def addF32Gt (md : Metadata) : Metadata := md
def addI64ExtendSI32 (md : Metadata) : Metadata := md
def addI32Extend8S (md : Metadata) : Metadata := md
def addI64Extend32S (md : Metadata) : Metadata := md
def addI32TruncSF64 (md : Metadata) : Metadata := md
def addI64TruncUF32 (md : Metadata) : Metadata := md
def addF32Trunc (md : Metadata) : Metadata := md
def addI32WrapI64 (md : Metadata) : Metadata := md
def addF64PromoteF32 (md : Metadata) : Metadata := md
def addF32DemoteF64 (md : Metadata) : Metadata := md
def addF32ConvertSI32 (md : Metadata) : Metadata := md
def addF64ConvertUI64 (md : Metadata) : Metadata := md
def addI32ReinterpretF32 (md : Metadata) : Metadata := md
def addF64ReinterpretI64 (md : Metadata) : Metadata := md

/-! ## Control flow -/

/-- `IPIntGenerator::addTopLevel` (lines 952-955). -/
def addTopLevel (signature : FunctionSignature) : IPIntControlType :=
  IPIntControlType.make signature .TopLevel

/-- `IPIntGenerator::addBlock` (lines 962-970): fresh Block scope, one raw
8-byte entry holding the post-header PC (the value-stack split does not touch
metadata). -/
def addBlock (md : Metadata) (signature : FunctionSignature) (pc : Nat) :
    Metadata × IPIntControlType :=
  ({ md with m_metadata := addRawValue md.m_metadata pc },
   IPIntControlType.make signature .Block)

/-- `IPIntGenerator::addLoop` (lines 972-984): fresh Loop scope with
`m_pendingOffset = -1`, one raw 8-byte entry holding the post-header PC, and
the branch-back coordinates fixed immediately: `m_pc` is the post-header PC
and `m_mc` the metadata size after the loop's own entry. -/
def addLoop (md : Metadata) (signature : FunctionSignature) (pc : Nat) :
    Metadata × IPIntControlType :=
  let m1 := addRawValue md.m_metadata pc
  ({ md with m_metadata := m1 },
   { IPIntControlType.make signature .Loop with
      m_pendingOffset := -1
      m_pc := (pc : Int)
      m_mc := (m1.length : Int) })

/-- `IPIntGenerator::addIf` (lines 986-997): fresh If scope remembering the
offset of an 8-byte blank placeholder (4B else-PC, 4B else-MC), followed by a
raw 8-byte entry holding the post-header PC. -/
def addIf (md : Metadata) (signature : FunctionSignature) (pc : Nat) :
    Metadata × IPIntControlType :=
  let pending := md.m_metadata.length
  let m1 := addBlankSpace md.m_metadata 8
  let m2 := addRawValue m1 pc
  ({ md with m_metadata := m2 },
   { IPIntControlType.make signature .If with m_pendingOffset := (pending : Int) })

/-- `IPIntGenerator::addElseToUnreachable` (lines 1008-1029).  `nextIsEnd`
stands for `m_parser->currentOpcode() == OpType::End` (the callback runs with
the parser on `end` when the `if` has no `else`, and on `else` otherwise).
Patches the if's placeholder with the new PC, and with MC = current size for
a bodyless if (converting the scope to a Block with no pending offset), or
MC = current size + 8 for a real else (converting the scope to a Block with a
fresh 8-byte placeholder for the matching end).  Either way the replacement
`ControlType` starts with an empty `m_awaitingUpdate`. -/
def addElseToUnreachable (md : Metadata) (block : IPIntControlType) (pc : Nat)
    (nextIsEnd : Bool) : Metadata × IPIntControlType :=
  let p := block.m_pendingOffset.toNat
  let m1 := writeToMetadata md.m_metadata p 4 pc
  if nextIsEnd then
    let m2 := writeToMetadata m1 (p + 4) 4 m1.length
    ({ md with m_metadata := m2 },
     { IPIntControlType.make block.m_signature .Block with m_pendingOffset := -1 })
  else
    let m2 := writeToMetadata m1 (p + 4) 4 (m1.length + 8)
    let newPending := m2.length
    let m3 := addBlankSpace m2 8
    ({ md with m_metadata := m3 },
     { IPIntControlType.make block.m_signature .Block with
        m_pendingOffset := (newPending : Int) })

/-- `IPIntGenerator::addBranch` (lines 1075-1084): register the entry's start
offset in the target scope's `m_awaitingUpdate`, allocate 16 blank bytes, and
fill bytes 8-9 with `stack.size() - branchTargetArity()` (size_t wrap-around,
truncated to 16 bits by the write), bytes 10-11 with the arity, and bytes
12-15 with the PC after the branch.  Bytes 0-7 stay blank until patched. -/
def addBranch (md : Metadata) (block : IPIntControlType) (stackSize pc : Nat) :
    Metadata × IPIntControlType :=
  let size := md.m_metadata.length
  let block' := { block with m_awaitingUpdate := block.m_awaitingUpdate ++ [size] }
  let m1 := addBlankSpace md.m_metadata 16
  let m2 := writeToMetadata m1 (size + 8) 2
    (((stackSize : Int) - (block.branchTargetArity : Int)) % (2 ^ 64 : Nat)).toNat
  let m3 := writeToMetadata m2 (size + 10) 2 block.branchTargetArity
  let m4 := writeToMetadata m3 (size + 12) 4 pc
  ({ md with m_metadata := m4 }, block')

/-- One arm of `IPIntGenerator::addSwitch` (lines 1096-1103 / 1104-1109; the
default target is handled by the same per-arm code): the scope at stack index
`j` gets `jumpBase` registered, and a 16-byte entry shaped exactly like a
`br` entry is appended. -/
def addSwitchArm (m : List Nat) (cs : List IPIntControlType) (j stackSize pc : Nat) :
    List Nat × List IPIntControlType :=
  let jumpBase := m.length
  let block := cs.getD j default
  let m1 := addBlankSpace m 16
  let m2 := writeToMetadata m1 (jumpBase + 8) 2
    (((stackSize : Int) - (block.branchTargetArity : Int)) % (2 ^ 64 : Nat)).toNat
  let m3 := writeToMetadata m2 (jumpBase + 10) 2 block.branchTargetArity
  let m4 := writeToMetadata m3 (jumpBase + 12) 4 pc
  (m4, cs.set j { block with m_awaitingUpdate := block.m_awaitingUpdate ++ [jumpBase] })

def addSwitchArms : List Nat → List Nat → List IPIntControlType → Nat → Nat →
    List Nat × List IPIntControlType
  | [], m, cs, _, _ => (m, cs)
  | j :: rest, m, cs, stackSize, pc =>
    let (m', cs') := addSwitchArm m cs j stackSize pc
    addSwitchArms rest m' cs' stackSize pc

/-- `IPIntGenerator::addSwitch` (lines 1085-1112): an 8-byte header holding
`jumps.size() + 1` (the target count including the default), then one 16-byte
branch entry per explicit target in order and one for the default.  In the
source the targets are pointers into the parser's control stack; here they
are indices `jumps` / `defaultJump` into the scope list `cs`, so two arms
aiming at the same scope accumulate in one `m_awaitingUpdate`. -/
def addSwitch (md : Metadata) (cs : List IPIntControlType) (jumps : List Nat)
    (defaultJump : Nat) (stackSize pc : Nat) : Metadata × List IPIntControlType :=
  let size := md.m_metadata.length
  let m1 := addBlankSpace md.m_metadata 8
  let m2 := writeToMetadata m1 size 8 (jumps.length + 1)
  let (m3, cs') := addSwitchArms (jumps ++ [defaultJump]) m2 cs stackSize pc
  ({ md with m_metadata := m3 }, cs')

/-- The patch applied at an `end` to one pending site `x`: 4B PC then 4B MC,
where the MC is the metadata size at patch time (lines 1130-1132, 1136-1138,
1142-1144, 1156-1158). -/
def patchSiteToCurrent (m : List Nat) (x : Nat) (pcv : Nat) : List Nat :=
  let m1 := writeToMetadata m x 4 pcv
  writeToMetadata m1 (x + 4) 4 m1.length

/-- The patch applied at a loop's `end` to one pending site `x`: the loop's
fixed `m_pc` / `m_mc`, written as uint32 (lines 1148-1152). -/
def patchSiteToLoopEntry (m : List Nat) (x : Nat) (pcv mcv : Int) : List Nat :=
  let m1 := writeToMetadata m x 4 (pcv % (2 ^ 32 : Nat)).toNat
  writeToMetadata m1 (x + 4) 4 (mcv % (2 ^ 32 : Nat)).toNat

/-- `IPIntGenerator::addEndToUnreachable` (lines 1119-1172), the metadata
effect (the value-stack refill at the end does not touch metadata).  `pc`
stands for `m_parser->offset() - m_metadata->m_bytecodeOffset`; the source
writes `pc - 1` ("index of last element").
- If: patch the scope's own placeholder to (pc - 1, current MC).
- Block with `m_pendingOffset != -1` (an if converted by a real else): patch
  that placeholder the same way -- `m_awaitingUpdate` is not visited.
- Block with no pending offset: patch every `m_awaitingUpdate` site to
  (pc - 1, current MC).
- Loop: patch every `m_awaitingUpdate` site to the stored (`m_pc`, `m_mc`).
- TopLevel: patch every `m_awaitingUpdate` site to (pc - 1, current MC),
  record the bytecode length, and append the Return Data block. -/
def addEndToUnreachable (md : Metadata) (block : IPIntControlType) (pc : Nat) : Metadata :=
  if block.m_blockType = .If then
    { md with m_metadata := patchSiteToCurrent md.m_metadata block.m_pendingOffset.toNat (pc - 1) }
  else if block.m_blockType = .Block then
    if block.m_pendingOffset ≠ -1 then
      { md with m_metadata := patchSiteToCurrent md.m_metadata block.m_pendingOffset.toNat (pc - 1) }
    else
      { md with m_metadata :=
          block.m_awaitingUpdate.foldl (fun acc x => patchSiteToCurrent acc x (pc - 1)) md.m_metadata }
  else if block.m_blockType = .Loop then
    { md with m_metadata :=
        block.m_awaitingUpdate.foldl (fun acc x => patchSiteToLoopEntry acc x block.m_pc block.m_mc) md.m_metadata }
  else if block.m_blockType = .TopLevel then
    let m1 := block.m_awaitingUpdate.foldl (fun acc x => patchSiteToCurrent acc x (pc - 1)) md.m_metadata
    { md with
        m_metadata := addReturnData m1 block.m_signature.returns
        m_bytecodeLength := pc }
  else md

/-- `IPIntGenerator::endBlock` (lines 1114-1117) forwards to
`addEndToUnreachable`. -/
def endBlock (md : Metadata) (block : IPIntControlType) (pc : Nat) : Metadata :=
  addEndToUnreachable md block pc

/-! ## Specification-side argument-assignment rules

Two rule definitions written from the words of the specification, to be
compared with `assignArgumentLocations` (the definition taken from the
source): the first follows the spec sentence literally (the float-register
path requires a float-typed parameter), the second the amended sentence (the
float-register path takes every non-integer-typed parameter). -/

/-- The argument-assignment rule as the spec states it: next free integer
register slot if integer-typed and integer slots remain, else next free float
register slot if float-typed and float slots remain, else next caller-stack
slot.  Returns the slots and the stack-overflow count. -/
def claimedArgumentLocations : List WasmType → Nat → Nat → Nat → List Nat × Nat
  | [], _, _, _ => ([], 0)
  | arg :: rest, numGPR, numFPR, stackOffset =>
    if (arg.isI32 || arg.isI64) ∧ numGPR < 8 then
      let r := claimedArgumentLocations rest (numGPR + 1) numFPR stackOffset
      (numGPR :: r.1, r.2)
    else if (arg.isF32 || arg.isF64) ∧ numFPR < 8 then
      let r := claimedArgumentLocations rest numGPR (numFPR + 1) stackOffset
      ((8 + numFPR) :: r.1, r.2)
    else
      let r := claimedArgumentLocations rest numGPR numFPR (stackOffset + 1)
      (stackOffset :: r.1, r.2 + 1)

/-- The amended argument-assignment rule: identical to the claimed one except
that the float-register path is taken by every parameter that is not
integer-typed (reference and vector types included), not only by float-typed
ones. -/
def amendedArgumentLocations : List WasmType → Nat → Nat → Nat → List Nat × Nat
  | [], _, _, _ => ([], 0)
  | arg :: rest, numGPR, numFPR, stackOffset =>
    if (arg.isI32 || arg.isI64) ∧ numGPR < 8 then
      let r := amendedArgumentLocations rest (numGPR + 1) numFPR stackOffset
      (numGPR :: r.1, r.2)
    else if ¬(arg.isI32 || arg.isI64) ∧ numFPR < 8 then
      let r := amendedArgumentLocations rest numGPR (numFPR + 1) stackOffset
      ((8 + numFPR) :: r.1, r.2)
    else
      let r := amendedArgumentLocations rest numGPR numFPR (stackOffset + 1)
      (stackOffset :: r.1, r.2 + 1)

/-! ## A concrete compilation run

Function `(param i32)`, body (bytecode-relative offsets on the left):

    0: local.get 0      (2 bytes)
    2: if (empty)       (2 bytes: opcode + block type)
    4: br 0             (2 bytes, targets the if scope)
    6: else             (1 byte)
    7: end              (1 byte, closes the if)
    8: end              (1 byte, closes the function)

The driving `FunctionParser` invokes the callbacks in program order, handing
each the parser offset at that moment; the chain below reproduces that
call sequence. -/

def exArgs : Metadata := addArguments {} ⟨[.i32], []⟩
def exLocal : Metadata := getLocal exArgs 0 2
def exIf : Metadata × IPIntControlType := addIf exLocal ⟨[], []⟩ 4
def exBr : Metadata × IPIntControlType := addBranch exIf.1 exIf.2 0 6
def exElse : Metadata × IPIntControlType := addElseToUnreachable exBr.1 exBr.2 7 false
def exEnd : Metadata := addEndToUnreachable exElse.1 exElse.2 8
def exFinal : Metadata := addEndToUnreachable exEnd (addTopLevel ⟨[.i32], []⟩) 9

/-! ## Loop-body operations, as seen by one loop scope

For claim C2 the history of a single loop scope between `addLoop` and its
`end` is universally quantified.  From the loop's standpoint every source
callback in the body either (a) only appends bytes to the metadata stream
(encoders, headers and arms of a `br_table` aimed at other scopes, nested
scopes' own entries), (b) is an `addBranch` registering against this loop
(`br`/`br_if`), or (c) is a `br_table` arm registering against this loop
(the per-arm code of `addSwitch`). -/

inductive LoopBodyEv
  | other (bs : List Nat)
  | branch (stackSize pc : Nat)
  | tableArm (stackSize pc : Nat)

def applyLoopBodyEv (s : Metadata × IPIntControlType) : LoopBodyEv → Metadata × IPIntControlType
  | .other bs => ({ s.1 with m_metadata := s.1.m_metadata ++ bs }, s.2)
  | .branch stackSize pc => addBranch s.1 s.2 stackSize pc
  | .tableArm stackSize pc =>
    let r := addSwitchArm s.1.m_metadata [s.2] 0 stackSize pc
    ({ s.1 with m_metadata := r.1 }, r.2.getD 0 default)

def applyLoopBody (s : Metadata × IPIntControlType) (evs : List LoopBodyEv) :
    Metadata × IPIntControlType :=
  evs.foldl applyLoopBodyEv s

/-- Pending branch-entry offsets are mutually 16 bytes apart (each entry is 16
bytes long and they are allocated at the then-current buffer end) and lie
wholly inside the buffer. -/
def OffsetsSeparated : List Nat → Nat → Prop
  | [], _ => True
  | x :: xs, n => x + 16 ≤ n ∧ (∀ y ∈ xs, x + 16 ≤ y) ∧ OffsetsSeparated xs n

/-- The loop-scope invariant for claim C2: the scope stays a Loop, keeps the
entry coordinates recorded at `addLoop`, and its registered offsets are
separated 16-byte entries inside the buffer. -/
def LoopScopeInv (pcv mcv : Int) (s : Metadata × IPIntControlType) : Prop :=
  s.2.m_blockType = .Loop ∧ s.2.m_pc = pcv ∧ s.2.m_mc = mcv ∧
  OffsetsSeparated s.2.m_awaitingUpdate s.1.m_metadata.length

/-! ## Byte-buffer lemmas -/

theorem length_writeToMetadata (m : List Nat) (off w v : Nat) :
    (writeToMetadata m off w v).length = m.length := by
  induction w generalizing m off v with
  | zero => rfl
  | succ w ih =>
    rw [writeToMetadata, ih]
    simp

theorem length_addBlankSpace (m : List Nat) (n : Nat) :
    (addBlankSpace m n).length = m.length + n := by
  simp [addBlankSpace]

theorem getD_set_of_ne {α : Type} (l : List α) (i j : Nat) (a d : α) (h : i ≠ j) :
    (l.set i a).getD j d = l.getD j d := by
  induction l generalizing i j with
  | nil => simp
  | cons x xs ih =>
    cases i with
    | zero =>
      cases j with
      | zero => exact absurd rfl h
      | succ j => simp [List.set, List.getD]
    | succ i =>
      cases j with
      | zero => simp [List.set, List.getD]
      | succ j =>
        simp only [List.set, List.getD_cons_succ]
        exact ih i j (fun hij => h (by omega))

theorem getD_set_self {α : Type} (l : List α) (i : Nat) (a d : α) (h : i < l.length) :
    (l.set i a).getD i d = a := by
  induction l generalizing i with
  | nil => simp at h
  | cons x xs ih =>
    cases i with
    | zero => simp [List.set, List.getD]
    | succ i =>
      simp only [List.set, List.getD_cons_succ]
      exact ih i (by simpa using h)

/-- A write leaves every byte outside `[off, off + w)` untouched. -/
theorem getD_writeToMetadata_of_lt (m : List Nat) (off w v j : Nat) (h : j < off) :
    (writeToMetadata m off w v).getD j 0 = m.getD j 0 := by
  induction w generalizing m off v with
  | zero => rfl
  | succ w ih =>
    rw [writeToMetadata, ih _ _ _ (by omega), getD_set_of_ne _ _ _ _ _ (by omega)]

theorem getD_writeToMetadata_of_ge (m : List Nat) (off w v j : Nat) (h : off + w ≤ j) :
    (writeToMetadata m off w v).getD j 0 = m.getD j 0 := by
  induction w generalizing m off v with
  | zero => rfl
  | succ w ih =>
    rw [writeToMetadata, ih _ _ _ (by omega), getD_set_of_ne _ _ _ _ _ (by omega)]

theorem readBytes_writeToMetadata_of_disjoint (m : List Nat) (off w v off' w' : Nat)
    (h : off' + w' ≤ off ∨ off + w ≤ off') :
    readBytes (writeToMetadata m off w v) off' w' = readBytes m off' w' := by
  induction w' generalizing off' with
  | zero => rfl
  | succ w' ih =>
    rw [readBytes, readBytes, ih (off' + 1) (by omega)]
    rcases h with h | h
    · rw [getD_writeToMetadata_of_lt _ _ _ _ _ (by omega)]
    · rw [getD_writeToMetadata_of_ge _ _ _ _ _ (by omega)]

theorem mod_mul_decompose (a b c : Nat) :
    a % (b * c) = a % b + b * (a / b % c) := by
  conv_lhs => rw [← Nat.div_add_mod (a % (b * c)) b]
  rw [Nat.mod_mul_right_div_self, Nat.mod_mod_of_dvd _ (dvd_mul_right b c)]
  ring

/-- Reading back an in-bounds write returns the value reduced mod `2^(8w)`. -/
theorem readBytes_writeToMetadata_self (m : List Nat) (off w v : Nat)
    (h : off + w ≤ m.length) :
    readBytes (writeToMetadata m off w v) off w = v % 2 ^ (8 * w) := by
  induction w generalizing m off v with
  | zero => simp [readBytes, writeToMetadata, Nat.mod_one]
  | succ w ih =>
    rw [writeToMetadata, readBytes]
    have hset : (m.set off (v % 256)).length = m.length := by simp
    rw [ih _ _ _ (by omega)]
    rw [getD_writeToMetadata_of_lt _ _ _ _ _ (by omega)]
    rw [getD_set_self _ _ _ _ (by omega)]
    have hpow : (2 : Nat) ^ (8 * (w + 1)) = 2 ^ 8 * 2 ^ (8 * w) := by
      rw [← pow_add]; ring_nf
    rw [hpow, mod_mul_decompose v (2 ^ 8) (2 ^ (8 * w))]
    norm_num

theorem getD_append_left (l t : List Nat) (j d : Nat) (h : j < l.length) :
    (l ++ t).getD j d = l.getD j d := by
  induction l generalizing j with
  | nil => simp at h
  | cons x xs ih =>
    cases j with
    | zero => simp [List.getD]
    | succ j =>
      simp only [List.cons_append, List.getD_cons_succ]
      exact ih j (by simpa using h)

theorem readBytes_append_left (l t : List Nat) (off w : Nat) (h : off + w ≤ l.length) :
    readBytes (l ++ t) off w = readBytes l off w := by
  induction w generalizing off with
  | zero => rfl
  | succ w ih =>
    rw [readBytes, readBytes, ih (off + 1) (by omega),
      getD_append_left _ _ _ _ (by omega)]

theorem getD_append_right (l t : List Nat) (j d : Nat) (h : l.length ≤ j) :
    (l ++ t).getD j d = t.getD (j - l.length) d := by
  induction l generalizing j with
  | nil => simp
  | cons x xs ih =>
    cases j with
    | zero => simp at h
    | succ j =>
      simp only [List.cons_append, List.getD_cons_succ, List.length_cons]
      rw [ih j (by simpa using h)]
      congr 1
      omega

theorem getD_replicate_zero (n i : Nat) : (List.replicate n 0).getD i 0 = 0 := by
  induction n generalizing i with
  | zero => simp
  | succ n ih =>
    cases i with
    | zero => simp [List.replicate, List.getD]
    | succ i => simp [List.replicate]

/-- Freshly allocated blank space reads back as zero. -/
theorem readBytes_blank (m : List Nat) (n off w : Nat) (h1 : m.length ≤ off)
    (h2 : off + w ≤ m.length + n) :
    readBytes (addBlankSpace m n) off w = 0 := by
  induction w generalizing off with
  | zero => rfl
  | succ w ih =>
    rw [readBytes, ih (off + 1) (by omega) (by omega)]
    rw [addBlankSpace, getD_append_right _ _ _ _ (by omega), getD_replicate_zero]


/-! ## Generator-level helper lemmas -/

theorem length_addRawValue (m : List Nat) (v : Nat) :
    (addRawValue m v).length = m.length + 8 := by
  simp [addRawValue, length_writeToMetadata, length_addBlankSpace]

theorem length_addLEB128ConstantInt32AndLength (m : List Nat) (v len : Nat) :
    (addLEB128ConstantInt32AndLength m v len).length = m.length + 8 := by
  simp [addLEB128ConstantInt32AndLength, length_writeToMetadata, length_addBlankSpace]

theorem length_patchSiteToCurrent (m : List Nat) (x pcv : Nat) :
    (patchSiteToCurrent m x pcv).length = m.length := by
  simp [patchSiteToCurrent, length_writeToMetadata]

theorem length_patchSiteToLoopEntry (m : List Nat) (x : Nat) (pcv mcv : Int) :
    (patchSiteToLoopEntry m x pcv mcv).length = m.length := by
  simp [patchSiteToLoopEntry, length_writeToMetadata]

theorem length_addBranch (md : Metadata) (block : IPIntControlType) (d pc : Nat) :
    (addBranch md block d pc).1.m_metadata.length = md.m_metadata.length + 16 := by
  simp [addBranch, length_writeToMetadata, length_addBlankSpace]

theorem length_addSwitchArm (m : List Nat) (cs : List IPIntControlType) (j d pc : Nat) :
    (addSwitchArm m cs j d pc).1.length = m.length + 16 := by
  simp [addSwitchArm, length_writeToMetadata, length_addBlankSpace]

theorem sub_wrap_eval (s a : Nat) (h : a ≤ s) (hs : s < 2 ^ 64) :
    (((s : Int) - (a : Int)) % ((2 ^ 64 : Nat) : Int)).toNat = s - a := by
  have h1 : (s : Int) - (a : Int) = ((s - a : Nat) : Int) := by omega
  rw [h1, Int.emod_eq_of_lt (by positivity) (by push_cast; omega)]
  simp

/-- Readback of a `addLEB128ConstantInt32AndLength` entry. -/
theorem readback_addLEB128 (m : List Nat) (v len : Nat) (hv : v < 2 ^ 32)
    (hlen : len < 2 ^ 32) :
    readBytes (addLEB128ConstantInt32AndLength m v len) m.length 4 = v ∧
    readBytes (addLEB128ConstantInt32AndLength m v len) (m.length + 4) 4 = len := by
  unfold addLEB128ConstantInt32AndLength
  have hblank : (addBlankSpace m 8).length = m.length + 8 := length_addBlankSpace m 8
  have hw1 : (writeToMetadata (addBlankSpace m 8) m.length 4 v).length = m.length + 8 := by
    rw [length_writeToMetadata, hblank]
  constructor
  · rw [readBytes_writeToMetadata_of_disjoint _ _ _ _ _ _ (Or.inl (by omega))]
    rw [readBytes_writeToMetadata_self _ _ _ _ (by omega)]
    exact Nat.mod_eq_of_lt (by norm_num at hv ⊢; omega)
  · rw [readBytes_writeToMetadata_self _ _ _ _ (by omega)]
    exact Nat.mod_eq_of_lt (by norm_num at hlen ⊢; omega)

/-! ## Claim theorems -/

/-- Claim C9: instructions with no interpreter-visible operand (integer and
floating-point arithmetic, bitwise, comparison, extension, truncation and
conversion operations) leave the metadata buffer completely unchanged. -/
theorem no_operand_ops_leave_metadata_unchanged (md : Metadata) :
    (addI32Add md).m_metadata = md.m_metadata ∧
    (addI64Add md).m_metadata = md.m_metadata ∧
    (addI32Sub md).m_metadata = md.m_metadata ∧
    (addI32Mul md).m_metadata = md.m_metadata ∧
    (addI64DivS md).m_metadata = md.m_metadata ∧
    (addI32RemU md).m_metadata = md.m_metadata ∧
    (addI32And md).m_metadata = md.m_metadata ∧
    (addI64Xor md).m_metadata = md.m_metadata ∧
    (addI32Shl md).m_metadata = md.m_metadata ∧
    (addI64ShrS md).m_metadata = md.m_metadata ∧
    (addI32Rotl md).m_metadata = md.m_metadata ∧
    (addI64Popcnt md).m_metadata = md.m_metadata ∧
    (addI32Clz md).m_metadata = md.m_metadata ∧
    (addI64Ctz md).m_metadata = md.m_metadata ∧
    (addF32Add md).m_metadata = md.m_metadata ∧
    (addF64Mul md).m_metadata = md.m_metadata ∧
    (addF32Div md).m_metadata = md.m_metadata ∧
    (addF64Sqrt md).m_metadata = md.m_metadata ∧
    (addF32Neg md).m_metadata = md.m_metadata ∧
    (addF64Abs md).m_metadata = md.m_metadata ∧
    (addF32Copysign md).m_metadata = md.m_metadata ∧
    (addF64Nearest md).m_metadata = md.m_metadata ∧
    (addI32Eq md).m_metadata = md.m_metadata ∧
    (addI32LtU md).m_metadata = md.m_metadata ∧
    (addI64GeS md).m_metadata = md.m_metadata ∧
    (addI64Eqz md).m_metadata = md.m_metadata ∧
    (addF32Eq md).m_metadata = md.m_metadata ∧
    (addF64Le md).m_metadata = md.m_metadata ∧
    (addF32Gt md).m_metadata = md.m_metadata ∧
    (addI64ExtendSI32 md).m_metadata = md.m_metadata ∧
    (addI32Extend8S md).m_metadata = md.m_metadata ∧
    (addI64Extend32S md).m_metadata = md.m_metadata ∧
    (addI32TruncSF64 md).m_metadata = md.m_metadata ∧
    (addI64TruncUF32 md).m_metadata = md.m_metadata ∧
    (addF32Trunc md).m_metadata = md.m_metadata ∧
    (addI32WrapI64 md).m_metadata = md.m_metadata ∧
    (addF64PromoteF32 md).m_metadata = md.m_metadata ∧
    (addF32DemoteF64 md).m_metadata = md.m_metadata ∧
    (addF32ConvertSI32 md).m_metadata = md.m_metadata ∧
    (addF64ConvertUI64 md).m_metadata = md.m_metadata ∧
    (addI32ReinterpretF32 md).m_metadata = md.m_metadata ∧
    (addF64ReinterpretI64 md).m_metadata = md.m_metadata :=
  ⟨rfl, rfl, rfl, rfl, rfl, rfl, rfl, rfl, rfl, rfl, rfl, rfl, rfl, rfl, rfl, rfl, rfl, rfl, rfl, rfl, rfl, rfl, rfl, rfl, rfl, rfl, rfl, rfl, rfl, rfl, rfl, rfl, rfl, rfl, rfl, rfl, rfl, rfl, rfl, rfl, rfl, rfl⟩

/-- Readback of the three field writes of a 16-byte branch entry (the shared
shape of `addBranch` and each `addSwitch` arm). -/
theorem branch_entry_readback (m : List Nat) (d a pc : Nat)
    (ha : a ≤ d) (hd : d < 2 ^ 16) (hpc : pc < 2 ^ 32) :
    readBytes (writeToMetadata (writeToMetadata (writeToMetadata (addBlankSpace m 16)
      (m.length + 8) 2 (((d : Int) - (a : Int)) % ((2 ^ 64 : Nat) : Int)).toNat)
      (m.length + 10) 2 a) (m.length + 12) 4 pc) (m.length + 8) 2 = d - a ∧
    readBytes (writeToMetadata (writeToMetadata (writeToMetadata (addBlankSpace m 16)
      (m.length + 8) 2 (((d : Int) - (a : Int)) % ((2 ^ 64 : Nat) : Int)).toNat)
      (m.length + 10) 2 a) (m.length + 12) 4 pc) (m.length + 10) 2 = a ∧
    readBytes (writeToMetadata (writeToMetadata (writeToMetadata (addBlankSpace m 16)
      (m.length + 8) 2 (((d : Int) - (a : Int)) % ((2 ^ 64 : Nat) : Int)).toNat)
      (m.length + 10) 2 a) (m.length + 12) 4 pc) (m.length + 12) 4 = pc := by
  have h1 : (addBlankSpace m 16).length = m.length + 16 := length_addBlankSpace _ _
  have h2 : (writeToMetadata (addBlankSpace m 16)
      (m.length + 8) 2 (((d : Int) - (a : Int)) % ((2 ^ 64 : Nat) : Int)).toNat).length
      = m.length + 16 := by
    rw [length_writeToMetadata, h1]
  have h3 : (writeToMetadata (writeToMetadata (addBlankSpace m 16)
      (m.length + 8) 2 (((d : Int) - (a : Int)) % ((2 ^ 64 : Nat) : Int)).toNat)
      (m.length + 10) 2 a).length = m.length + 16 := by
    rw [length_writeToMetadata, h2]
  refine ⟨?_, ?_, ?_⟩
  · rw [readBytes_writeToMetadata_of_disjoint _ _ _ _ _ _ (Or.inl (by omega))]
    rw [readBytes_writeToMetadata_of_disjoint _ _ _ _ _ _ (Or.inl (by omega))]
    rw [readBytes_writeToMetadata_self _ _ _ _ (by omega)]
    rw [sub_wrap_eval d a ha (by norm_num at hd ⊢; omega)]
    exact Nat.mod_eq_of_lt (by norm_num at hd ⊢; omega)
  · rw [readBytes_writeToMetadata_of_disjoint _ _ _ _ _ _ (Or.inl (by omega))]
    rw [readBytes_writeToMetadata_self _ _ _ _ (by omega)]
    exact Nat.mod_eq_of_lt (by norm_num at hd ⊢; omega)
  · rw [readBytes_writeToMetadata_self _ _ _ _ (by omega)]
    exact Nat.mod_eq_of_lt (by norm_num at hpc ⊢; omega)

/-- Claim C3: a `br`/`br_if` at operand-stack depth `d` targeting a scope of
branch-target arity `a` allocates exactly one 16-byte entry whose bytes 8-9
hold `d - a`, bytes 10-11 hold `a` and bytes 12-15 hold the resume PC, and
registers the entry's starting offset into the target's `m_awaitingUpdate`;
hence valuesToPop + arity equals the stack depth at the branch site. -/
theorem addBranch_entry_layout (md : Metadata) (block : IPIntControlType) (d pc : Nat)
    (ha : block.branchTargetArity ≤ d) (hd : d < 2 ^ 16) (hpc : pc < 2 ^ 32) :
    (addBranch md block d pc).1.m_metadata.length = md.m_metadata.length + 16 ∧
    (addBranch md block d pc).2.m_awaitingUpdate
      = block.m_awaitingUpdate ++ [md.m_metadata.length] ∧
    readBytes (addBranch md block d pc).1.m_metadata (md.m_metadata.length + 8) 2
      = d - block.branchTargetArity ∧
    readBytes (addBranch md block d pc).1.m_metadata (md.m_metadata.length + 10) 2
      = block.branchTargetArity ∧
    readBytes (addBranch md block d pc).1.m_metadata (md.m_metadata.length + 12) 4 = pc ∧
    readBytes (addBranch md block d pc).1.m_metadata (md.m_metadata.length + 8) 2
      + readBytes (addBranch md block d pc).1.m_metadata (md.m_metadata.length + 10) 2
      = d := by
  obtain ⟨h8, h10, h12⟩ :=
    branch_entry_readback md.m_metadata d block.branchTargetArity pc ha hd hpc
  have hr8 : readBytes (addBranch md block d pc).1.m_metadata (md.m_metadata.length + 8) 2
      = d - block.branchTargetArity := h8
  have hr10 : readBytes (addBranch md block d pc).1.m_metadata (md.m_metadata.length + 10) 2
      = block.branchTargetArity := h10
  exact ⟨length_addBranch md block d pc, rfl, hr8, hr10, h12, by rw [hr8, hr10]; omega⟩

/-- Witness for the C3 theorem at a concrete branch site: stack depth 1,
target a block with a single i32 result (arity 1). -/
theorem addBranch_entry_layout_witness :
    (IPIntControlType.make ⟨[], [.i32]⟩ .Block).branchTargetArity ≤ 1 ∧
    readBytes (addBranch {} (IPIntControlType.make ⟨[], [.i32]⟩ .Block) 1 5).1.m_metadata 12 4
      = 5 := by
  have h := addBranch_entry_layout {} (IPIntControlType.make ⟨[], [.i32]⟩ .Block) 1 5
    (by decide) (by norm_num) (by norm_num)
  exact ⟨by decide, h.2.2.2.2.1⟩

/-- Readback of the patch-then-reallocate shape of a real `else`
(`addElseToUnreachable`, non-end path). -/
theorem else_false_readback (m : List Nat) (p pc : Nat)
    (hp : p + 8 ≤ m.length) (hpc : pc < 2 ^ 32) (hlen : m.length + 8 < 2 ^ 32) :
    readBytes (addBlankSpace (writeToMetadata (writeToMetadata m p 4 pc) (p + 4) 4
      ((writeToMetadata m p 4 pc).length + 8)) 8) p 4 = pc ∧
    readBytes (addBlankSpace (writeToMetadata (writeToMetadata m p 4 pc) (p + 4) 4
      ((writeToMetadata m p 4 pc).length + 8)) 8) (p + 4) 4 = m.length + 8 ∧
    (addBlankSpace (writeToMetadata (writeToMetadata m p 4 pc) (p + 4) 4
      ((writeToMetadata m p 4 pc).length + 8)) 8).length = m.length + 8 := by
  have h1 : (writeToMetadata m p 4 pc).length = m.length := length_writeToMetadata _ _ _ _
  have h2 : (writeToMetadata (writeToMetadata m p 4 pc) (p + 4) 4
      ((writeToMetadata m p 4 pc).length + 8)).length = m.length := by
    rw [length_writeToMetadata, h1]
  refine ⟨?_, ?_, ?_⟩
  · rw [addBlankSpace, readBytes_append_left _ _ _ _ (by omega)]
    rw [readBytes_writeToMetadata_of_disjoint _ _ _ _ _ _ (Or.inl (by omega))]
    rw [readBytes_writeToMetadata_self _ _ _ _ (by omega)]
    exact Nat.mod_eq_of_lt (by norm_num at hpc ⊢; omega)
  · rw [addBlankSpace, readBytes_append_left _ _ _ _ (by omega)]
    rw [readBytes_writeToMetadata_self _ _ _ _ (by omega)]
    rw [h1]
    exact Nat.mod_eq_of_lt (by norm_num at hlen ⊢; omega)
  · rw [length_addBlankSpace, h2]

/-- Claim C4 (counterexample): at the `else` of the concrete run (current PC
7, placeholder at offset 8, metadata size 40), the placeholder is NOT
patched with (currentPC - 1, current metadata size) = (6, 40); the code
writes (7, 48). -/
theorem addElse_claim_counterexample :
    readBytes exElse.1.m_metadata 8 4 = 7 ∧
    readBytes exElse.1.m_metadata 12 4 = 48 ∧
    ¬(readBytes exElse.1.m_metadata 8 4 = 7 - 1 ∧
      readBytes exElse.1.m_metadata 12 4 = 40) := by
  refine ⟨by decide, by decide, by decide⟩

/-- Claim C4 (amended): when an `else` with a real else arm is processed, the
if's 8-byte placeholder is overwritten with PC = the current PC (the offset
just past the `else` opcode) and MC = the current metadata size + 8 (the
offset just past the fresh 8-byte placeholder allocated for the matching
`end`, where dispatch of the else arm's metadata resumes); the scope becomes
a Block whose pending offset is that fresh placeholder and whose
`m_awaitingUpdate` starts empty. -/
theorem addElse_real_else_resolution (md : Metadata) (block : IPIntControlType) (pc : Nat)
    (hp : block.m_pendingOffset.toNat + 8 ≤ md.m_metadata.length)
    (hpc : pc < 2 ^ 32) (hlen : md.m_metadata.length + 8 < 2 ^ 32) :
    readBytes (addElseToUnreachable md block pc false).1.m_metadata
      block.m_pendingOffset.toNat 4 = pc ∧
    readBytes (addElseToUnreachable md block pc false).1.m_metadata
      (block.m_pendingOffset.toNat + 4) 4 = md.m_metadata.length + 8 ∧
    (addElseToUnreachable md block pc false).1.m_metadata.length
      = md.m_metadata.length + 8 ∧
    (addElseToUnreachable md block pc false).2.m_blockType = .Block ∧
    (addElseToUnreachable md block pc false).2.m_pendingOffset
      = (md.m_metadata.length : Int) ∧
    (addElseToUnreachable md block pc false).2.m_awaitingUpdate = [] := by
  obtain ⟨g1, g2, g3⟩ :=
    else_false_readback md.m_metadata block.m_pendingOffset.toNat pc hp hpc hlen
  have hpend : (writeToMetadata (writeToMetadata md.m_metadata
      block.m_pendingOffset.toNat 4 pc) (block.m_pendingOffset.toNat + 4) 4
      ((writeToMetadata md.m_metadata block.m_pendingOffset.toNat 4 pc).length + 8)).length
      = md.m_metadata.length := by
    rw [length_writeToMetadata, length_writeToMetadata]
  refine ⟨g1, g2, g3, rfl, ?_, rfl⟩
  show ((writeToMetadata (writeToMetadata md.m_metadata
      block.m_pendingOffset.toNat 4 pc) (block.m_pendingOffset.toNat + 4) 4
      ((writeToMetadata md.m_metadata block.m_pendingOffset.toNat 4 pc).length + 8)).length
      : Int) = (md.m_metadata.length : Int)
  exact_mod_cast hpend

/-- Witness for the amended C4 theorem at the concrete run's `else`. -/
theorem addElse_real_else_resolution_witness :
    exBr.2.m_pendingOffset.toNat + 8 ≤ exBr.1.m_metadata.length ∧
    readBytes (addElseToUnreachable exBr.1 exBr.2 7 false).1.m_metadata
      (exBr.2.m_pendingOffset.toNat + 4) 4 = exBr.1.m_metadata.length + 8 := by
  have h := addElse_real_else_resolution exBr.1 exBr.2 7 (by decide) (by norm_num)
    (by decide)
  exact ⟨by decide, h.2.1⟩

/-- Readback of the in-place patch of a bodyless `if`
(`addElseToUnreachable`, end path). -/
theorem else_true_readback (m : List Nat) (p pc : Nat)
    (hp : p + 8 ≤ m.length) (hpc : pc < 2 ^ 32) (hlen : m.length < 2 ^ 32) :
    readBytes (writeToMetadata (writeToMetadata m p 4 pc) (p + 4) 4
      (writeToMetadata m p 4 pc).length) p 4 = pc ∧
    readBytes (writeToMetadata (writeToMetadata m p 4 pc) (p + 4) 4
      (writeToMetadata m p 4 pc).length) (p + 4) 4 = m.length ∧
    (writeToMetadata (writeToMetadata m p 4 pc) (p + 4) 4
      (writeToMetadata m p 4 pc).length).length = m.length := by
  have h1 : (writeToMetadata m p 4 pc).length = m.length := length_writeToMetadata _ _ _ _
  refine ⟨?_, ?_, ?_⟩
  · rw [readBytes_writeToMetadata_of_disjoint _ _ _ _ _ _ (Or.inl (by omega))]
    rw [readBytes_writeToMetadata_self _ _ _ _ (by omega)]
    exact Nat.mod_eq_of_lt (by norm_num at hpc ⊢; omega)
  · rw [readBytes_writeToMetadata_self _ _ _ _ (by omega)]
    rw [h1]
    exact Nat.mod_eq_of_lt (by norm_num at hlen ⊢; omega)
  · rw [length_writeToMetadata, h1]

/-- Claim C5: an `if` with no `else` (detected because the current opcode is
`end`) gets exactly one 8-byte placeholder: the one allocated by `addIf` at
the remembered pending offset (read back as blank), patched in place by the
end-of-if handling without any further allocation; the scope converts to
Block kind with pending offset -1 and an empty `m_awaitingUpdate`, and the
subsequent `end` processing patches nothing for it. -/
theorem if_without_else_single_placeholder (md : Metadata) (sig : FunctionSignature)
    (pcIf : Nat) (md' : Metadata) (block : IPIntControlType) (pc epc : Nat)
    (md'' : Metadata)
    (hp : block.m_pendingOffset.toNat + 8 ≤ md'.m_metadata.length)
    (hpc : pc < 2 ^ 32) (hlen : md'.m_metadata.length < 2 ^ 32) :
    ((addIf md sig pcIf).1.m_metadata.length = md.m_metadata.length + 16 ∧
      readBytes (addIf md sig pcIf).1.m_metadata md.m_metadata.length 8 = 0 ∧
      (addIf md sig pcIf).2.m_pendingOffset = (md.m_metadata.length : Int)) ∧
    ((addElseToUnreachable md' block pc true).1.m_metadata.length
        = md'.m_metadata.length ∧
      readBytes (addElseToUnreachable md' block pc true).1.m_metadata
        block.m_pendingOffset.toNat 4 = pc ∧
      readBytes (addElseToUnreachable md' block pc true).1.m_metadata
        (block.m_pendingOffset.toNat + 4) 4 = md'.m_metadata.length ∧
      (addElseToUnreachable md' block pc true).2.m_blockType = .Block ∧
      (addElseToUnreachable md' block pc true).2.m_pendingOffset = -1 ∧
      (addElseToUnreachable md' block pc true).2.m_awaitingUpdate = []) ∧
    addEndToUnreachable md'' (addElseToUnreachable md' block pc true).2 epc = md'' := by
  obtain ⟨g1, g2, g3⟩ :=
    else_true_readback md'.m_metadata block.m_pendingOffset.toNat pc hp hpc hlen
  have hIfLen : (addIf md sig pcIf).1.m_metadata.length = md.m_metadata.length + 16 := by
    have : (addRawValue (addBlankSpace md.m_metadata 8) pcIf).length
        = md.m_metadata.length + 16 := by
      rw [length_addRawValue, length_addBlankSpace]
    exact this
  have hIfBlank : readBytes (addIf md sig pcIf).1.m_metadata md.m_metadata.length 8 = 0 := by
    have hb : (md.m_metadata ++ List.replicate 8 0).length = md.m_metadata.length + 8 := by
      simp
    have key : readBytes (addRawValue (addBlankSpace md.m_metadata 8) pcIf)
        md.m_metadata.length 8 = 0 := by
      unfold addRawValue addBlankSpace
      rw [readBytes_writeToMetadata_of_disjoint _ _ _ _ _ _ (Or.inl (by omega))]
      rw [readBytes_append_left _ _ _ _ (by omega)]
      exact readBytes_blank _ _ _ _ (by omega) (by omega)
    exact key
  exact ⟨⟨hIfLen, hIfBlank, rfl⟩, ⟨g3, g1, g2, rfl, rfl, rfl⟩, rfl⟩

/-- Witness for the C5 theorem at the concrete run's `if`, taking the
no-else path. -/
theorem if_without_else_single_placeholder_witness :
    exBr.2.m_pendingOffset.toNat + 8 ≤ exBr.1.m_metadata.length ∧
    (addElseToUnreachable exBr.1 exBr.2 7 true).2.m_pendingOffset = -1 := by
  have h := if_without_else_single_placeholder {} ⟨[], []⟩ 4 exBr.1 exBr.2 7 8 {}
    (by decide) (by norm_num) (by decide)
  exact ⟨by decide, h.2.1.2.2.2.2.1⟩

theorem assign_eq_amended (args : List WasmType) (g f so : Nat) :
    assignArgumentLocations args g f so = amendedArgumentLocations args g f so := by
  induction args generalizing g f so with
  | nil => rfl
  | cons arg rest ih =>
    cases harg : (arg.isI32 || arg.isI64) with
    | true =>
      by_cases hg : g < 8
      · simp [assignArgumentLocations, amendedArgumentLocations, harg, hg, ih]
      · simp [assignArgumentLocations, amendedArgumentLocations, harg, hg, ih]
    | false =>
      by_cases hf : f < 8
      · simp [assignArgumentLocations, amendedArgumentLocations, harg, hf, ih]
      · simp [assignArgumentLocations, amendedArgumentLocations, harg, hf, ih]

/-- The stack-assigned slots are exactly the consecutive offsets
`so, so + 1, ...`, one per overflow argument. -/
theorem assign_stack_slots (args : List WasmType) (g f so : Nat) (hso : 16 ≤ so) :
    (assignArgumentLocations args g f so).1.filter (fun x => 16 ≤ x)
      = List.range' so (assignArgumentLocations args g f so).2 := by
  induction args generalizing g f so with
  | nil => rfl
  | cons arg rest ih =>
    rw [assignArgumentLocations]
    by_cases harg : (arg.isI32 || arg.isI64) = true
    · rw [if_pos harg]
      by_cases hg : g < 8
      · rw [if_pos hg]
        dsimp only
        rw [List.filter_cons_of_neg (by simp only [decide_eq_true_eq]; omega)]
        exact ih (g + 1) f so hso
      · rw [if_neg hg]
        dsimp only
        rw [List.filter_cons_of_pos (by simpa using hso)]
        rw [ih g f (so + 1) (by omega)]
        rfl
    · rw [if_neg harg]
      by_cases hf : f < 8
      · rw [if_pos hf]
        dsimp only
        rw [List.filter_cons_of_neg (by simp only [decide_eq_true_eq]; omega)]
        exact ih g (f + 1) so hso
      · rw [if_neg hf]
        dsimp only
        rw [List.filter_cons_of_pos (by simpa using hso)]
        rw [ih g f (so + 1) (by omega)]
        rfl

/-- Claim C7 (counterexample): a `funcref` parameter is not float-typed, so
by the claimed rule it would overflow to caller-stack slot 16 with one
argument counted on the stack; `addArguments` instead assigns it float
register slot 8 and counts no stack argument. -/
theorem addArguments_claim_counterexample :
    (addArguments {} ⟨[.funcref], []⟩).m_argumentLocations = [8] ∧
    (addArguments {} ⟨[.funcref], []⟩).m_numArgumentsOnStack = 0 ∧
    claimedArgumentLocations [.funcref] 0 0 16 = ([16], 1) ∧
    ((addArguments {} ⟨[.funcref], []⟩).m_argumentLocations
        ≠ (claimedArgumentLocations [.funcref] 0 0 16).1 ∧
      (addArguments {} ⟨[.funcref], []⟩).m_numArgumentsOnStack
        ≠ (claimedArgumentLocations [.funcref] 0 0 16).2) := by
  refine ⟨by decide, by decide, by decide, by decide, by decide⟩

/-- Claim C7 (amended): `addArguments` assigns each parameter in declaration
order to the next free integer register slot if it is integer-typed and
fewer than 8 integer slots are used, else to the next free float register
slot if fewer than 8 float slots are used -- the float-register path is taken
by every non-integer-typed parameter (reference and vector types included),
not only float-typed ones -- else to the next caller-stack slot, numbered
from the fixed frame-header size 16 and increasing by one per overflow
argument regardless of type; the stack-assigned slots are exactly
16, 17, ... (strictly increasing) and their number is what is added to
`m_numArgumentsOnStack`. -/
theorem addArguments_assignment (md : Metadata) (sig : FunctionSignature) :
    (addArguments md sig).m_argumentLocations
      = (amendedArgumentLocations sig.arguments 0 0 16).1 ∧
    (addArguments md sig).m_numArgumentsOnStack
      = md.m_numArgumentsOnStack + (amendedArgumentLocations sig.arguments 0 0 16).2 ∧
    (addArguments md sig).m_argumentLocations.filter (fun x => 16 ≤ x)
      = List.range' 16 (amendedArgumentLocations sig.arguments 0 0 16).2 ∧
    ((addArguments md sig).m_argumentLocations.filter (fun x => 16 ≤ x)).length
      = (addArguments md sig).m_numArgumentsOnStack - md.m_numArgumentsOnStack ∧
    List.Chain' (fun a b => a < b)
      ((addArguments md sig).m_argumentLocations.filter (fun x => 16 ≤ x)) := by
  have h1 : (addArguments md sig).m_argumentLocations
      = (assignArgumentLocations sig.arguments 0 0 16).1 := rfl
  have h2 : (addArguments md sig).m_numArgumentsOnStack
      = md.m_numArgumentsOnStack + (assignArgumentLocations sig.arguments 0 0 16).2 := rfl
  have heq := assign_eq_amended sig.arguments 0 0 16
  have hslots := assign_stack_slots sig.arguments 0 0 16 (by omega)
  refine ⟨by rw [h1, heq], by rw [h2, heq], ?_, ?_, ?_⟩
  · rw [h1, hslots, heq]
  · rw [h1, hslots, List.length_range', h2]
    omega
  · rw [h1, hslots]
    exact (List.pairwise_lt_range' _ _).chain'

theorem assign_locs_length (args : List WasmType) (g f so : Nat) :
    (assignArgumentLocations args g f so).1.length = args.length := by
  induction args generalizing g f so with
  | nil => rfl
  | cons arg rest ih =>
    rw [assignArgumentLocations]
    by_cases harg : (arg.isI32 || arg.isI64) = true
    · rw [if_pos harg]
      by_cases hg : g < 8
      · rw [if_pos hg]; dsimp only; rw [List.length_cons, ih, List.length_cons]
      · rw [if_neg hg]; dsimp only; rw [List.length_cons, ih, List.length_cons]
    · rw [if_neg harg]
      by_cases hf : f < 8
      · rw [if_pos hf]; dsimp only; rw [List.length_cons, ih, List.length_cons]
      · rw [if_neg hf]; dsimp only; rw [List.length_cons, ih, List.length_cons]

theorem assign_locs_bound (args : List WasmType) (g f so : Nat) (hso : 16 ≤ so) :
    ∀ x ∈ (assignArgumentLocations args g f so).1, x < so + args.length := by
  induction args generalizing g f so with
  | nil => intro x hx; simp [assignArgumentLocations] at hx
  | cons arg rest ih =>
    intro x hx
    rw [List.length_cons]
    rw [assignArgumentLocations] at hx
    by_cases harg : (arg.isI32 || arg.isI64) = true
    · rw [if_pos harg] at hx
      by_cases hg : g < 8
      · rw [if_pos hg] at hx
        rcases List.mem_cons.mp hx with h | h
        · omega
        · have := ih (g + 1) f so hso x h; omega
      · rw [if_neg hg] at hx
        rcases List.mem_cons.mp hx with h | h
        · omega
        · have := ih g f (so + 1) (by omega) x h; omega
    · rw [if_neg harg] at hx
      by_cases hf : f < 8
      · rw [if_pos hf] at hx
        rcases List.mem_cons.mp hx with h | h
        · omega
        · have := ih g (f + 1) so hso x h; omega
      · rw [if_neg hf] at hx
        rcases List.mem_cons.mp hx with h | h
        · omega
        · have := ih g f (so + 1) (by omega) x h; omega

theorem emod_pow32_toNat_lt (z : Int) : (z % ((2 ^ 32 : Nat) : Int)).toNat < 2 ^ 32 := by
  have h1 : z % ((2 ^ 32 : Nat) : Int) < ((2 ^ 32 : Nat) : Int) :=
    Int.emod_lt_of_pos z (by positivity)
  have h2 : 0 ≤ z % ((2 ^ 32 : Nat) : Int) := Int.emod_nonneg z (by positivity)
  omega

theorem nonarg_slot_eval (i S A : Nat) (hA : A ≤ i) (hM : i + 16 + S - A < 2 ^ 32) :
    (((i : Int) + (16 + (S : Int) - (A : Int))) % ((2 ^ 32 : Nat) : Int)).toNat
      = i + 16 + S - A := by
  have h1 : (i : Int) + (16 + (S : Int) - (A : Int)) = ((i + 16 + S - A : Nat) : Int) := by
    omega
  rw [h1, Int.emod_eq_of_lt (by positivity) (by push_cast; omega)]
  simp

/-- The metadata effect of `getLocal` on an arbitrary generator state. -/
theorem getLocal_readback (md : Metadata) (i len : Nat) (hlen : len < 2 ^ 32)
    (hbound : ∀ x ∈ md.m_argumentLocations, x < 2 ^ 32)
    (hloclen : md.m_argumentLocations.length = md.m_numArguments) :
    (getLocal md i len).m_metadata.length = md.m_metadata.length + 8 ∧
    (md.m_numArguments ≤ i →
      readBytes (getLocal md i len).m_metadata md.m_metadata.length 4
        = (((i : Int) + md.m_nonArgLocalOffset) % ((2 ^ 32 : Nat) : Int)).toNat ∧
      readBytes (getLocal md i len).m_metadata (md.m_metadata.length + 4) 4 = len) ∧
    (i < md.m_numArguments →
      readBytes (getLocal md i len).m_metadata md.m_metadata.length 4
        = md.m_argumentLocations.getD i 0 ∧
      readBytes (getLocal md i len).m_metadata (md.m_metadata.length + 4) 4 = len) := by
  by_cases h : i ≥ md.m_numArguments
  · have hmeta : (getLocal md i len).m_metadata
        = addLEB128ConstantInt32AndLength md.m_metadata
          (((i : Int) + md.m_nonArgLocalOffset) % ((2 ^ 32 : Nat) : Int)).toNat len := by
      unfold getLocal
      rw [if_pos h]
    obtain ⟨r1, r2⟩ := readback_addLEB128 md.m_metadata
      (((i : Int) + md.m_nonArgLocalOffset) % ((2 ^ 32 : Nat) : Int)).toNat len
      (emod_pow32_toNat_lt _) hlen
    refine ⟨?_, fun _ => ⟨?_, ?_⟩, fun hlt => absurd hlt (by omega)⟩
    · rw [hmeta, length_addLEB128ConstantInt32AndLength]
    · rw [hmeta]; exact r1
    · rw [hmeta]; exact r2
  · have hlt : i < md.m_numArguments := by omega
    have hmeta : (getLocal md i len).m_metadata
        = addLEB128ConstantInt32AndLength md.m_metadata
          (md.m_argumentLocations.getD i 0) len := by
      unfold getLocal
      rw [if_neg h]
    have hmem : md.m_argumentLocations.getD i 0 ∈ md.m_argumentLocations := by
      rw [List.getD_eq_getElem?_getD, List.getElem?_eq_getElem (by omega)]
      exact List.getElem_mem _
    obtain ⟨r1, r2⟩ := readback_addLEB128 md.m_metadata
      (md.m_argumentLocations.getD i 0) len (hbound _ hmem) hlen
    refine ⟨?_, fun hge => absurd hge (by omega), fun _ => ⟨?_, ?_⟩⟩
    · rw [hmeta, length_addLEB128ConstantInt32AndLength]
    · rw [hmeta]; exact r1
    · rw [hmeta]; exact r2

/-- Claim C8: for a `local.get`/`local.set` on index `i` after
`addArguments`, the entry's 4-byte slot field is the Argument/Return Layout
Table slot when `i` is an argument index, and
`i + nonArgumentBaseOffset` = `i + 16 + numArgumentsOnStack - numArguments`
otherwise, where the base offset was fixed by `addArguments`; the second
4-byte field is the source instruction's byte length either way, and
`local.set` writes the identical entry. -/
theorem local_slot_resolution (md0 : Metadata) (sig : FunctionSignature) (i len : Nat)
    (hlen : len < 2 ^ 32) (hargs : 16 + sig.arguments.length < 2 ^ 32)
    (hval : i + 16 + (addArguments md0 sig).m_numArgumentsOnStack
        - (addArguments md0 sig).m_numArguments < 2 ^ 32) :
    (addArguments md0 sig).m_nonArgLocalOffset
      = 16 + ((addArguments md0 sig).m_numArgumentsOnStack : Int)
        - ((addArguments md0 sig).m_numArguments : Int) ∧
    setLocal (addArguments md0 sig) i len = getLocal (addArguments md0 sig) i len ∧
    (getLocal (addArguments md0 sig) i len).m_metadata.length
      = (addArguments md0 sig).m_metadata.length + 8 ∧
    ((addArguments md0 sig).m_numArguments ≤ i →
      readBytes (getLocal (addArguments md0 sig) i len).m_metadata
          (addArguments md0 sig).m_metadata.length 4
        = i + 16 + (addArguments md0 sig).m_numArgumentsOnStack
          - (addArguments md0 sig).m_numArguments ∧
      readBytes (getLocal (addArguments md0 sig) i len).m_metadata
          ((addArguments md0 sig).m_metadata.length + 4) 4 = len) ∧
    (i < (addArguments md0 sig).m_numArguments →
      readBytes (getLocal (addArguments md0 sig) i len).m_metadata
          (addArguments md0 sig).m_metadata.length 4
        = (addArguments md0 sig).m_argumentLocations.getD i 0 ∧
      readBytes (getLocal (addArguments md0 sig) i len).m_metadata
          ((addArguments md0 sig).m_metadata.length + 4) 4 = len) := by
  have hA : (addArguments md0 sig).m_numArguments = sig.arguments.length := rfl
  have hbound : ∀ x ∈ (addArguments md0 sig).m_argumentLocations, x < 2 ^ 32 := by
    intro x hx
    have := assign_locs_bound sig.arguments 0 0 16 (by omega) x hx
    omega
  have hloclen : (addArguments md0 sig).m_argumentLocations.length
      = (addArguments md0 sig).m_numArguments := by
    rw [hA]
    exact assign_locs_length sig.arguments 0 0 16
  obtain ⟨g1, g2, g3⟩ := getLocal_readback (addArguments md0 sig) i len hlen hbound hloclen
  refine ⟨rfl, rfl, g1, fun hge => ?_, g3⟩
  obtain ⟨r1, r2⟩ := g2 hge
  refine ⟨?_, r2⟩
  rw [r1]
  have hoff : (addArguments md0 sig).m_nonArgLocalOffset
      = 16 + ((addArguments md0 sig).m_numArgumentsOnStack : Int)
        - ((addArguments md0 sig).m_numArguments : Int) := rfl
  rw [hoff]
  have := nonarg_slot_eval i (addArguments md0 sig).m_numArgumentsOnStack
    (addArguments md0 sig).m_numArguments hge hval
  rw [show (i : Int) + (16 + ((addArguments md0 sig).m_numArgumentsOnStack : Int)
      - ((addArguments md0 sig).m_numArguments : Int))
      = (i : Int) + (16 + ((addArguments md0 sig).m_numArgumentsOnStack : Int)
      - ((addArguments md0 sig).m_numArguments : Int)) from rfl]
  exact this

/-- Witness for the C8 theorem: function `(param i32 f64)`, reading argument
0 and (via a second application at index 5) a plain local. -/
theorem local_slot_resolution_witness :
    (2 : Nat) < 2 ^ 32 ∧
    readBytes (getLocal (addArguments {} ⟨[.i32, .f64], []⟩) 0 2).m_metadata 0 4
      = (addArguments {} ⟨[.i32, .f64], []⟩).m_argumentLocations.getD 0 0 := by
  have h := local_slot_resolution {} ⟨[.i32, .f64], []⟩ 0 2 (by norm_num) (by norm_num)
    (by decide)
  exact ⟨by norm_num, (h.2.2.2.2 (by decide)).1⟩

/-- Claim C1 (code evaluated at the failing input): in the concrete run of
the `if`/`br 0`/`else` function, the branch entry at metadata offset 24 is
registered in the if scope's `m_awaitingUpdate`, but after the if's `end`
and function finalization its 8-byte (PC, MC) field is still the blank
zeros it was allocated with: `addElseToUnreachable` replaced the scope with
a fresh `ControlType` (dropping `m_awaitingUpdate`) and the `end` handling
skips `m_awaitingUpdate` for a Block with a pending offset, so the
registered entry is never patched. -/
theorem branch_to_if_scope_never_patched :
    exBr.2.m_awaitingUpdate = [24] ∧
    (exFinal.m_metadata.drop 24).take 8 = List.replicate 8 0 ∧
    exFinal.m_metadata.length = 56 := by
  refine ⟨by decide, by decide, by decide⟩

theorem offsetsSeparated_mono (offs : List Nat) (n n' : Nat)
    (h : OffsetsSeparated offs n) (hn : n ≤ n') : OffsetsSeparated offs n' := by
  induction offs with
  | nil => trivial
  | cons x xs ih =>
    obtain ⟨h1, h2, h3⟩ := h
    exact ⟨by omega, h2, ih h3⟩

theorem offsetsSeparated_snoc (offs : List Nat) (n : Nat)
    (h : OffsetsSeparated offs n) : OffsetsSeparated (offs ++ [n]) (n + 16) := by
  induction offs with
  | nil => exact ⟨by omega, by simp, trivial⟩
  | cons x xs ih =>
    obtain ⟨h1, h2, h3⟩ := h
    refine ⟨by omega, ?_, ih h3⟩
    intro y hy
    rcases List.mem_append.mp hy with h | h
    · exact h2 y h
    · simp only [List.mem_singleton] at h
      omega

theorem loopScopeInv_step (pcv mcv : Int) (s : Metadata × IPIntControlType)
    (h : LoopScopeInv pcv mcv s) (ev : LoopBodyEv) :
    LoopScopeInv pcv mcv (applyLoopBodyEv s ev) := by
  obtain ⟨hbt, hpc, hmc, hsep⟩ := h
  cases ev with
  | other bs =>
    refine ⟨hbt, hpc, hmc, ?_⟩
    · show OffsetsSeparated s.2.m_awaitingUpdate (s.1.m_metadata ++ bs).length
      exact offsetsSeparated_mono _ _ _ hsep (by simp)
  | branch stackSize pc =>
    refine ⟨hbt, hpc, hmc, ?_⟩
    show OffsetsSeparated (s.2.m_awaitingUpdate ++ [s.1.m_metadata.length])
      (addBranch s.1 s.2 stackSize pc).1.m_metadata.length
    rw [length_addBranch]
    exact offsetsSeparated_snoc _ _ hsep
  | tableArm stackSize pc =>
    have hctl : (applyLoopBodyEv s (.tableArm stackSize pc)).2
        = { s.2 with m_awaitingUpdate := s.2.m_awaitingUpdate ++ [s.1.m_metadata.length] } := by
      show (([s.2].set 0 _).getD 0 default) = _
      rfl
    have hlen : (applyLoopBodyEv s (.tableArm stackSize pc)).1.m_metadata.length
        = s.1.m_metadata.length + 16 := by
      show (addSwitchArm s.1.m_metadata [s.2] 0 stackSize pc).1.length = _
      exact length_addSwitchArm _ _ _ _ _
    refine ⟨?_, ?_, ?_, ?_⟩
    · rw [hctl]; exact hbt
    · rw [hctl]; exact hpc
    · rw [hctl]; exact hmc
    · rw [hctl, hlen]
      exact offsetsSeparated_snoc _ _ hsep

theorem loopScopeInv_run (pcv mcv : Int) (s : Metadata × IPIntControlType)
    (h : LoopScopeInv pcv mcv s) (evs : List LoopBodyEv) :
    LoopScopeInv pcv mcv (applyLoopBody s evs) := by
  induction evs generalizing s with
  | nil => exact h
  | cons ev evs ih => exact ih _ (loopScopeInv_step pcv mcv s h ev)

theorem loopScopeInv_init (md0 : Metadata) (sig : FunctionSignature) (pc0 : Nat) :
    LoopScopeInv (pc0 : Int) ((md0.m_metadata.length + 8 : Nat) : Int)
      (addLoop md0 sig pc0) := by
  refine ⟨rfl, rfl, ?_, trivial⟩
  show ((addRawValue md0.m_metadata pc0).length : Int) = _
  rw [length_addRawValue]

/-- Later loop-entry patches never touch bytes below every patched offset. -/
theorem fold_patchLoop_preserves (offs : List Nat) (m : List Nat) (pcv mcv : Int)
    (a w : Nat) (hlo : ∀ y ∈ offs, a + w ≤ y) :
    readBytes (offs.foldl (fun acc x => patchSiteToLoopEntry acc x pcv mcv) m) a w
      = readBytes m a w := by
  induction offs generalizing m with
  | nil => rfl
  | cons y ys ih =>
    rw [List.foldl_cons, ih _ (fun z hz => hlo z (List.mem_cons_of_mem _ hz))]
    have hy := hlo y (List.mem_cons_self _ _)
    unfold patchSiteToLoopEntry
    rw [readBytes_writeToMetadata_of_disjoint _ _ _ _ _ _ (Or.inl (by omega))]
    rw [readBytes_writeToMetadata_of_disjoint _ _ _ _ _ _ (Or.inl (by omega))]

theorem natcast_emod_pow32_toNat (n : Nat) (h : n < 2 ^ 32) :
    (((n : Nat) : Int) % ((2 ^ 32 : Nat) : Int)).toNat = n := by
  rw [Int.emod_eq_of_lt (by positivity) (by push_cast; omega)]
  simp

/-- Every separated offset reads back the patched loop-entry pair after the
loop's patch fold. -/
theorem fold_patchLoop_readback (offs : List Nat) (m : List Nat) (pcv mcv : Int)
    (hsep : OffsetsSeparated offs m.length) :
    ∀ x ∈ offs,
      readBytes (offs.foldl (fun acc y => patchSiteToLoopEntry acc y pcv mcv) m) x 4
        = (pcv % ((2 ^ 32 : Nat) : Int)).toNat ∧
      readBytes (offs.foldl (fun acc y => patchSiteToLoopEntry acc y pcv mcv) m) (x + 4) 4
        = (mcv % ((2 ^ 32 : Nat) : Int)).toNat := by
  induction offs generalizing m with
  | nil => intro x hx; simp at hx
  | cons y ys ih =>
    obtain ⟨hy, hall, hys⟩ := hsep
    intro x hx
    rw [List.foldl_cons]
    have hplen : (patchSiteToLoopEntry m y pcv mcv).length = m.length :=
      length_patchSiteToLoopEntry _ _ _ _
    rcases List.mem_cons.mp hx with rfl | hmem
    · have hpres1 := fold_patchLoop_preserves ys (patchSiteToLoopEntry m x pcv mcv) pcv mcv
        x 4 (fun z hz => by have := hall z hz; omega)
      have hpres2 := fold_patchLoop_preserves ys (patchSiteToLoopEntry m x pcv mcv) pcv mcv
        (x + 4) 4 (fun z hz => by have := hall z hz; omega)
      rw [hpres1, hpres2]
      unfold patchSiteToLoopEntry
      constructor
      · rw [readBytes_writeToMetadata_of_disjoint _ _ _ _ _ _ (Or.inl (by omega))]
        rw [readBytes_writeToMetadata_self _ _ _ _ (by omega)]
        exact Nat.mod_eq_of_lt (by have := emod_pow32_toNat_lt pcv; norm_num at this ⊢; omega)
      · rw [readBytes_writeToMetadata_self _ _ _ _ (by rw [length_writeToMetadata]; omega)]
        exact Nat.mod_eq_of_lt (by have := emod_pow32_toNat_lt mcv; norm_num at this ⊢; omega)
    · exact ih (patchSiteToLoopEntry m y pcv mcv) (by rw [hplen]; exact hys) x hmem

/-- The `end` of a Loop scope runs exactly the loop patch fold. -/
theorem addEndToUnreachable_loop (md : Metadata) (block : IPIntControlType) (pc : Nat)
    (h : block.m_blockType = .Loop) :
    addEndToUnreachable md block pc
      = { md with m_metadata := block.m_awaitingUpdate.foldl (fun acc x => patchSiteToLoopEntry acc x block.m_pc block.m_mc) md.m_metadata } := by
  unfold addEndToUnreachable
  rw [if_neg (by rw [h]; intro hc; cases hc)]
  rw [if_neg (by rw [h]; intro hc; cases hc)]
  rw [if_pos h]

/-- Claim C2: for a loop opened at bytecode cursor `pc0` (entry MC = the
metadata size just after the loop's own entry), after any sequence of
loop-body operations (plain appends, `br`/`br_if` registrations via
`addBranch`, `br_table` arm registrations via the `addSwitch` per-arm code),
the `end` processing patches every registered branch entry with exactly the
loop-entry pair (`pc0`, entry MC) -- regardless of the `end`'s own cursor
`endPc`, so never with the coordinates of the loop's end. -/
theorem loop_branch_patch_targets_entry (md0 : Metadata) (sig : FunctionSignature)
    (pc0 : Nat) (evs : List LoopBodyEv) (endPc x : Nat)
    (hpc : pc0 < 2 ^ 32) (hmc : md0.m_metadata.length + 8 < 2 ^ 32)
    (hx : x ∈ (applyLoopBody (addLoop md0 sig pc0) evs).2.m_awaitingUpdate) :
    readBytes (addEndToUnreachable (applyLoopBody (addLoop md0 sig pc0) evs).1
        (applyLoopBody (addLoop md0 sig pc0) evs).2 endPc).m_metadata x 4 = pc0 ∧
    readBytes (addEndToUnreachable (applyLoopBody (addLoop md0 sig pc0) evs).1
        (applyLoopBody (addLoop md0 sig pc0) evs).2 endPc).m_metadata (x + 4) 4
      = md0.m_metadata.length + 8 := by
  obtain ⟨hbt, hpcf, hmcf, hsep⟩ :=
    loopScopeInv_run _ _ _ (loopScopeInv_init md0 sig pc0) evs
  rw [addEndToUnreachable_loop _ _ _ hbt]
  dsimp only
  obtain ⟨r1, r2⟩ := fold_patchLoop_readback
    (applyLoopBody (addLoop md0 sig pc0) evs).2.m_awaitingUpdate
    (applyLoopBody (addLoop md0 sig pc0) evs).1.m_metadata
    (applyLoopBody (addLoop md0 sig pc0) evs).2.m_pc
    (applyLoopBody (addLoop md0 sig pc0) evs).2.m_mc hsep x hx
  constructor
  · rw [r1, hpcf, natcast_emod_pow32_toNat pc0 hpc]
  · rw [r2, hmcf, natcast_emod_pow32_toNat _ hmc]

/-- Witness for the C2 theorem: loop at cursor 2 over empty metadata, one
`br 0` in the body, `end` at cursor 9; the registered entry at offset 8 is
patched with (2, 8). -/
theorem loop_branch_patch_targets_entry_witness :
    (8 ∈ (applyLoopBody (addLoop {} ⟨[], []⟩ 2) [.branch 0 4]).2.m_awaitingUpdate) ∧
    readBytes (addEndToUnreachable (applyLoopBody (addLoop {} ⟨[], []⟩ 2) [.branch 0 4]).1
        (applyLoopBody (addLoop {} ⟨[], []⟩ 2) [.branch 0 4]).2 9).m_metadata 8 4 = 2 := by
  have h := loop_branch_patch_targets_entry {} ⟨[], []⟩ 2 [.branch 0 4] 9 8
    (by norm_num) (by norm_num) (by decide)
  exact ⟨by decide, h.1⟩

theorem set_of_length_le {α : Type} (l : List α) (i : Nat) (a : α) (h : l.length ≤ i) :
    l.set i a = l := by
  induction l generalizing i with
  | nil => rfl
  | cons x xs ih =>
    cases i with
    | zero => simp at h
    | succ i =>
      simp only [List.set]
      rw [ih i (by simpa using h)]

theorem addSwitchArm_arity (m : List Nat) (cs : List IPIntControlType) (j s pc k : Nat) :
    ((addSwitchArm m cs j s pc).2.getD k default).branchTargetArity
      = (cs.getD k default).branchTargetArity := by
  show ((cs.set j _).getD k default).branchTargetArity = _
  by_cases hk : j = k
  · subst hk
    by_cases hj : j < cs.length
    · rw [getD_set_self _ _ _ _ hj]
      rfl
    · rw [set_of_length_le _ _ _ (by omega)]
  · rw [getD_set_of_ne _ _ _ _ _ hk]

theorem addSwitchArm_awaiting_mono (m : List Nat) (cs : List IPIntControlType)
    (j s pc k x : Nat) (hx : x ∈ (cs.getD k default).m_awaitingUpdate) :
    x ∈ ((addSwitchArm m cs j s pc).2.getD k default).m_awaitingUpdate := by
  show x ∈ ((cs.set j _).getD k default).m_awaitingUpdate
  by_cases hk : j = k
  · subst hk
    by_cases hj : j < cs.length
    · rw [getD_set_self _ _ _ _ hj]
      exact List.mem_append_left _ hx
    · rw [set_of_length_le _ _ _ (by omega)]
      exact hx
  · rw [getD_set_of_ne _ _ _ _ _ hk]
    exact hx

theorem addSwitchArm_cs_length (m : List Nat) (cs : List IPIntControlType) (j s pc : Nat) :
    (addSwitchArm m cs j s pc).2.length = cs.length := by
  show (cs.set j _).length = cs.length
  exact List.length_set _ _ _

theorem addSwitchArms_cs_length (js : List Nat) (m : List Nat)
    (cs : List IPIntControlType) (s pc : Nat) :
    (addSwitchArms js m cs s pc).2.length = cs.length := by
  induction js generalizing m cs with
  | nil => rfl
  | cons j rest ih =>
    show (addSwitchArms rest (addSwitchArm m cs j s pc).1
      (addSwitchArm m cs j s pc).2 s pc).2.length = cs.length
    rw [ih, addSwitchArm_cs_length]

theorem addSwitchArms_arity (js : List Nat) (m : List Nat) (cs : List IPIntControlType)
    (s pc k : Nat) :
    ((addSwitchArms js m cs s pc).2.getD k default).branchTargetArity
      = (cs.getD k default).branchTargetArity := by
  induction js generalizing m cs with
  | nil => rfl
  | cons j rest ih =>
    show ((addSwitchArms rest (addSwitchArm m cs j s pc).1
      (addSwitchArm m cs j s pc).2 s pc).2.getD k default).branchTargetArity = _
    rw [ih, addSwitchArm_arity]

theorem addSwitchArms_awaiting_mono (js : List Nat) (m : List Nat)
    (cs : List IPIntControlType) (s pc k x : Nat)
    (hx : x ∈ (cs.getD k default).m_awaitingUpdate) :
    x ∈ ((addSwitchArms js m cs s pc).2.getD k default).m_awaitingUpdate := by
  induction js generalizing m cs with
  | nil => exact hx
  | cons j rest ih =>
    show x ∈ ((addSwitchArms rest (addSwitchArm m cs j s pc).1
      (addSwitchArm m cs j s pc).2 s pc).2.getD k default).m_awaitingUpdate
    exact ih _ _ (addSwitchArm_awaiting_mono m cs j s pc k x hx)

theorem addSwitchArm_length_eq (m : List Nat) (cs : List IPIntControlType) (j s pc : Nat) :
    (addSwitchArm m cs j s pc).1.length = m.length + 16 :=
  length_addSwitchArm m cs j s pc

theorem addSwitchArms_length (js : List Nat) (m : List Nat) (cs : List IPIntControlType)
    (s pc : Nat) :
    (addSwitchArms js m cs s pc).1.length = m.length + 16 * js.length := by
  induction js generalizing m cs with
  | nil => simp [addSwitchArms]
  | cons j rest ih =>
    show (addSwitchArms rest (addSwitchArm m cs j s pc).1
      (addSwitchArm m cs j s pc).2 s pc).1.length = _
    rw [ih, addSwitchArm_length_eq, List.length_cons]
    ring

/-- One `addSwitch` arm never touches bytes below the buffer end it was
appended at. -/
theorem addSwitchArm_preserves (m : List Nat) (cs : List IPIntControlType)
    (j s pc a w : Nat) (h : a + w ≤ m.length) :
    readBytes (addSwitchArm m cs j s pc).1 a w = readBytes m a w := by
  show readBytes (writeToMetadata (writeToMetadata (writeToMetadata (addBlankSpace m 16)
    (m.length + 8) 2 _) (m.length + 10) 2 _) (m.length + 12) 4 pc) a w = readBytes m a w
  rw [readBytes_writeToMetadata_of_disjoint _ _ _ _ _ _ (Or.inl (by omega))]
  rw [readBytes_writeToMetadata_of_disjoint _ _ _ _ _ _ (Or.inl (by omega))]
  rw [readBytes_writeToMetadata_of_disjoint _ _ _ _ _ _ (Or.inl (by omega))]
  exact readBytes_append_left _ _ _ _ h

theorem addSwitchArms_preserves (js : List Nat) (m : List Nat)
    (cs : List IPIntControlType) (s pc a w : Nat) (h : a + w ≤ m.length) :
    readBytes (addSwitchArms js m cs s pc).1 a w = readBytes m a w := by
  induction js generalizing m cs with
  | nil => rfl
  | cons j rest ih =>
    show readBytes (addSwitchArms rest (addSwitchArm m cs j s pc).1
      (addSwitchArm m cs j s pc).2 s pc).1 a w = readBytes m a w
    rw [ih _ _ (by rw [addSwitchArm_length_eq]; omega)]
    exact addSwitchArm_preserves m cs j s pc a w h

/-- Per-arm layout and registration of `addSwitchArms`. -/
theorem addSwitchArms_spec (js : List Nat) (m : List Nat) (cs : List IPIntControlType)
    (s pc : Nat) (hpc : pc < 2 ^ 32) (hs : s < 2 ^ 16)
    (har : ∀ j ∈ js, (cs.getD j default).branchTargetArity ≤ s)
    (hjlt : ∀ j ∈ js, j < cs.length) :
    ∀ i, i < js.length →
      readBytes (addSwitchArms js m cs s pc).1 (m.length + 16 * i + 8) 2
          = s - (cs.getD (js.getD i 0) default).branchTargetArity ∧
      readBytes (addSwitchArms js m cs s pc).1 (m.length + 16 * i + 10) 2
          = (cs.getD (js.getD i 0) default).branchTargetArity ∧
      readBytes (addSwitchArms js m cs s pc).1 (m.length + 16 * i + 12) 4 = pc ∧
      (m.length + 16 * i) ∈
          ((addSwitchArms js m cs s pc).2.getD (js.getD i 0) default).m_awaitingUpdate := by
  induction js generalizing m cs with
  | nil => intro i hi; simp at hi
  | cons j rest ih =>
    intro i hi
    have hj : j < cs.length := hjlt j (List.mem_cons_self _ _)
    have haj : (cs.getD j default).branchTargetArity ≤ s := har j (List.mem_cons_self _ _)
    cases i with
    | zero =>
      have hb := branch_entry_readback m s ((cs.getD j default).branchTargetArity) pc
        haj hs hpc
      have harm1 : readBytes (addSwitchArm m cs j s pc).1 (m.length + 8) 2
          = s - (cs.getD j default).branchTargetArity := hb.1
      have harm2 : readBytes (addSwitchArm m cs j s pc).1 (m.length + 10) 2
          = (cs.getD j default).branchTargetArity := hb.2.1
      have harm3 : readBytes (addSwitchArm m cs j s pc).1 (m.length + 12) 4 = pc := hb.2.2
      have hlen := addSwitchArm_length_eq m cs j s pc
      have hp1 : readBytes (addSwitchArms (j :: rest) m cs s pc).1 (m.length + 8) 2
          = s - (cs.getD j default).branchTargetArity := by
        show readBytes (addSwitchArms rest (addSwitchArm m cs j s pc).1
          (addSwitchArm m cs j s pc).2 s pc).1 (m.length + 8) 2 = _
        rw [addSwitchArms_preserves _ _ _ _ _ _ _ (by omega)]
        exact harm1
      have hp2 : readBytes (addSwitchArms (j :: rest) m cs s pc).1 (m.length + 10) 2
          = (cs.getD j default).branchTargetArity := by
        show readBytes (addSwitchArms rest (addSwitchArm m cs j s pc).1
          (addSwitchArm m cs j s pc).2 s pc).1 (m.length + 10) 2 = _
        rw [addSwitchArms_preserves _ _ _ _ _ _ _ (by omega)]
        exact harm2
      have hp3 : readBytes (addSwitchArms (j :: rest) m cs s pc).1 (m.length + 12) 4
          = pc := by
        show readBytes (addSwitchArms rest (addSwitchArm m cs j s pc).1
          (addSwitchArm m cs j s pc).2 s pc).1 (m.length + 12) 4 = _
        rw [addSwitchArms_preserves _ _ _ _ _ _ _ (by omega)]
        exact harm3
      have hmem : m.length ∈
          ((addSwitchArms (j :: rest) m cs s pc).2.getD j default).m_awaitingUpdate := by
        show m.length ∈ ((addSwitchArms rest (addSwitchArm m cs j s pc).1
          (addSwitchArm m cs j s pc).2 s pc).2.getD j default).m_awaitingUpdate
        refine addSwitchArms_awaiting_mono _ _ _ _ _ _ _ ?_
        show m.length ∈ ((cs.set j _).getD j default).m_awaitingUpdate
        rw [getD_set_self _ _ _ _ hj]
        exact List.mem_append_right _ (List.mem_singleton.mpr rfl)
      simp only [List.getD_cons_zero, Nat.mul_zero, Nat.add_zero]
      exact ⟨hp1, hp2, hp3, hmem⟩
    | succ i =>
      have hrest := ih (addSwitchArm m cs j s pc).1 (addSwitchArm m cs j s pc).2
        (fun j' hj' => by rw [addSwitchArm_arity]; exact har j' (List.mem_cons_of_mem _ hj'))
        (fun j' hj' => by rw [addSwitchArm_cs_length]; exact hjlt j' (List.mem_cons_of_mem _ hj'))
        i (by simpa using hi)
      have hlen := addSwitchArm_length_eq m cs j s pc
      have hoffs : (addSwitchArm m cs j s pc).1.length + 16 * i
          = m.length + 16 * (i + 1) := by
        rw [hlen]; ring
      have harity := addSwitchArm_arity m cs j s pc (rest.getD i 0)
      obtain ⟨q1, q2, q3, q4⟩ := hrest
      rw [hoffs] at q1 q2 q3 q4
      rw [harity] at q1 q2
      refine ⟨q1, q2, q3, q4⟩

/-- Claim C6: `addSwitch` for a `br_table` with `n` explicit targets plus a
default emits one 8-byte header holding `n + 1`, followed by `n + 1`
consecutive 16-byte entries (one per explicit target in order, then the
default), each laid out like a `br` entry (values-to-pop at bytes 8-9, arity
at bytes 10-11, resume PC at bytes 12-15) and each registered into its own
target scope's `m_awaitingUpdate`. -/
theorem addSwitch_layout (md : Metadata) (cs : List IPIntControlType)
    (jumps : List Nat) (defaultJump : Nat) (s pc : Nat)
    (hpc : pc < 2 ^ 32) (hs : s < 2 ^ 16) (hn : jumps.length + 1 < 2 ^ 64)
    (har : ∀ j ∈ jumps ++ [defaultJump], (cs.getD j default).branchTargetArity ≤ s)
    (hjlt : ∀ j ∈ jumps ++ [defaultJump], j < cs.length) :
    (addSwitch md cs jumps defaultJump s pc).1.m_metadata.length
      = md.m_metadata.length + 8 + 16 * (jumps.length + 1) ∧
    readBytes (addSwitch md cs jumps defaultJump s pc).1.m_metadata
      md.m_metadata.length 8 = jumps.length + 1 ∧
    (∀ i, i < jumps.length + 1 →
      readBytes (addSwitch md cs jumps defaultJump s pc).1.m_metadata
          (md.m_metadata.length + 8 + 16 * i + 8) 2
        = s - (cs.getD ((jumps ++ [defaultJump]).getD i 0) default).branchTargetArity ∧
      readBytes (addSwitch md cs jumps defaultJump s pc).1.m_metadata
          (md.m_metadata.length + 8 + 16 * i + 10) 2
        = (cs.getD ((jumps ++ [defaultJump]).getD i 0) default).branchTargetArity ∧
      readBytes (addSwitch md cs jumps defaultJump s pc).1.m_metadata
          (md.m_metadata.length + 8 + 16 * i + 12) 4 = pc ∧
      (md.m_metadata.length + 8 + 16 * i) ∈
          ((addSwitch md cs jumps defaultJump s pc).2.getD
            ((jumps ++ [defaultJump]).getD i 0) default).m_awaitingUpdate) := by
  have hm1 : (addBlankSpace md.m_metadata 8).length = md.m_metadata.length + 8 :=
    length_addBlankSpace _ _
  have hm2 : (writeToMetadata (addBlankSpace md.m_metadata 8) md.m_metadata.length 8
      (jumps.length + 1)).length = md.m_metadata.length + 8 := by
    rw [length_writeToMetadata, hm1]
  have hspec := addSwitchArms_spec (jumps ++ [defaultJump])
    (writeToMetadata (addBlankSpace md.m_metadata 8) md.m_metadata.length 8
      (jumps.length + 1)) cs s pc hpc hs har hjlt
  rw [hm2] at hspec
  have hjslen : (jumps ++ [defaultJump]).length = jumps.length + 1 := by simp
  refine ⟨?_, ?_, ?_⟩
  · show (addSwitchArms (jumps ++ [defaultJump]) _ cs s pc).1.length = _
    rw [addSwitchArms_length, hm2, hjslen]
  · show readBytes (addSwitchArms (jumps ++ [defaultJump]) _ cs s pc).1
      md.m_metadata.length 8 = _
    rw [addSwitchArms_preserves _ _ _ _ _ _ _ (by omega)]
    rw [readBytes_writeToMetadata_self _ _ _ _ (by rw [hm1])]
    exact Nat.mod_eq_of_lt (by norm_num at hn ⊢; omega)
  · intro i hi
    have h := hspec i (by rw [hjslen]; omega)
    have hoff : md.m_metadata.length + 8 + 16 * i = md.m_metadata.length + 8 + 16 * i := rfl
    obtain ⟨q1, q2, q3, q4⟩ := h
    exact ⟨q1, q2, q3, q4⟩

/-- Witness for the C6 theorem: one explicit target and the default both
aiming at scope 0 (an empty-signature Block), operand stack depth 0,
`br_table` ending at cursor 3: the header reads 2 and the default's entry
(index 1, at offset 24) is registered. -/
theorem addSwitch_layout_witness :
    ((0 : Nat) < 2 ^ 16) ∧
    readBytes (addSwitch {} [IPIntControlType.make ⟨[], []⟩ .Block] [0] 0 0 3).1.m_metadata
      0 8 = 2 ∧
    (24 : Nat) ∈ ((addSwitch {} [IPIntControlType.make ⟨[], []⟩ .Block] [0] 0 0 3).2.getD
      0 default).m_awaitingUpdate := by
  have h := addSwitch_layout {} [IPIntControlType.make ⟨[], []⟩ .Block] [0] 0 0 3
    (by norm_num) (by norm_num) (by norm_num) (by decide) (by decide)
  refine ⟨by norm_num, h.2.1, ?_⟩
  have h1 := (h.2.2 1 (by norm_num)).2.2.2
  simpa using h1

/-- Claim C10: `getLocal` and `setLocal` append byte-identical metadata
entries: for every generator state, local index and instruction length the
two callbacks produce the same result, so the metadata stream does not
distinguish a read of a local from a write to it. -/
theorem getLocal_setLocal_identical (md : Metadata) (i len : Nat) :
    getLocal md i len = setLocal md i len := rfl

end IPInt
